import Mathlib

/-!
Verification of the EmoDeskBot repository (ai_desk_bot.py and
vision/smile_detector.py) against its natural-language specification.

Text is modelled as `List Char`; Python string primitives (`find`,
`replace`, `strip`, slicing, `lower`) are embedded below with their
Python semantics.  Side effects (HTTP requests to the ESP32 device,
speech playback) are modelled as explicit event lists, and the outcomes
of external calls (HTTP status codes, raised exceptions, stream frames)
are passed in as parameters.
-/

set_option linter.unusedVariables false

/-- Text, modelled as a list of characters. -/
abbrev Str := List Char

/-- Python `str.lower()` (ASCII). -/
def strLower (s : Str) : Str := s.map Char.toLower

/-- Auxiliary worker for Python `str.find`: first index `≥ i` at which
`sub` occurs in `hay`, where `i` is the number of characters already
skipped. -/
def pyFindAux (sub : Str) : Str → Nat → Option Nat
  | [], i => if sub.isPrefixOf [] then some i else none
  | c :: t, i => if sub.isPrefixOf (c :: t) then some i else pyFindAux sub t (i + 1)

/-- Python `hay.find(sub)`: index of the first occurrence of `sub` in
`hay`, `none` standing for Python result `-1`. -/
def pyFind (hay sub : Str) : Option Nat := pyFindAux sub hay 0

/-- Python `hay.find(sub, start)`. -/
def pyFindFrom (hay sub : Str) (start : Nat) : Option Nat :=
  pyFindAux sub (hay.drop start) start

/-- Python slicing `s[i:j]` for `0 ≤ i ≤ j`. -/
def pySlice (s : Str) (i j : Nat) : Str := (s.drop i).take (j - i)

/-- Python substring containment `sub in hay`. -/
def containsSub (hay sub : Str) : Bool := (pyFind hay sub).isSome

/-- Whitespace for Python `str.strip()`. -/
def isSpaceChar (c : Char) : Bool :=
  c == ' ' || c == '\t' || c == '\n' || c == '\r' || c == '\x0b' || c == '\x0c'

/-- Python `str.strip()`: drop leading and trailing whitespace. -/
def pyStrip (s : Str) : Str :=
  ((s.dropWhile isSpaceChar).reverse.dropWhile isSpaceChar).reverse

/-- Worker for Python `str.replace`: scans left to right; `k` is the
number of characters of a just-replaced occurrence still to be skipped
before scanning resumes (so occurrences are non-overlapping). -/
def replaceAllAux (old new : Str) : Str → Nat → Str
  | [], _ => []
  | c :: t, 0 =>
    if old.isPrefixOf (c :: t) ∧ old ≠ [] then
      new ++ replaceAllAux old new t (old.length - 1)
    else
      c :: replaceAllAux old new t 0
  | _ :: t, k + 1 => replaceAllAux old new t k

/-- Python `hay.replace(old, new)` for nonempty `old`: replace every
non-overlapping occurrence, scanning left to right.  (For `old = []`
this returns `hay` unchanged; the program only replaces nonempty
activation phrases.) -/
def replaceAll (old new hay : Str) : Str := replaceAllAux old new hay 0

/-- `sub` occurs in `s` at index `i`. -/
def occursAt (sub s : Str) (i : Nat) : Bool := sub.isPrefixOf (s.drop i)

/-! ### Basic facts about `pyFindAux` -/

theorem pyFindAux_cons (sub : Str) (c : Char) (t : Str) (i : Nat)
    (h : sub.isPrefixOf (c :: t) = false) :
    pyFindAux sub (c :: t) i = pyFindAux sub t (i + 1) := by
  simp [pyFindAux, h]

theorem pyFindAux_here (sub hay : Str) (i : Nat)
    (h : sub.isPrefixOf hay = true) : pyFindAux sub hay i = some i := by
  cases hay <;> simp [pyFindAux, h]

/-- A single character not occurring in `s` is not found. -/
theorem pyFindAux_single_none (c : Char) (s : Str) (i : Nat)
    (h : c ∉ s) : pyFindAux [c] s i = none := by
  induction s generalizing i with
  | nil => rw [pyFindAux]; simp [List.isPrefixOf]
  | cons d t ih =>
    have hcd : c ≠ d := fun he => h (he ▸ List.mem_cons_self d t)
    have hpre : ([c] : Str).isPrefixOf (d :: t) = false := by
      simp [List.isPrefixOf, hcd]
    rw [pyFindAux_cons _ _ _ _ hpre]
    exact ih (i + 1) (fun hm => h (List.mem_cons_of_mem d hm))

/-- Finding a single character `c` just past a `c`-free block `q`. -/
theorem pyFindAux_single_after (c : Char) (q z : Str) (i : Nat)
    (h : c ∉ q) : pyFindAux [c] (q ++ c :: z) i = some (i + q.length) := by
  induction q generalizing i with
  | nil =>
    rw [pyFindAux_here]
    · simp
    · simp [List.isPrefixOf]
  | cons d q' ih =>
    have hcd : c ≠ d := fun he => h (he ▸ List.mem_cons_self d q')
    have hpre : ([c] : Str).isPrefixOf (d :: (q' ++ c :: z)) = false := by
      simp [List.isPrefixOf, hcd]
    rw [List.cons_append, pyFindAux_cons _ _ _ _ hpre,
      ih (i + 1) (fun hm => h (List.mem_cons_of_mem d hm))]
    simp [List.length_cons]
    omega

/-- Searching for a pattern starting with `'['` skips any block free of
`'['`. -/
theorem pyFindAux_skip_block (p' : Str) (a r : Str) (i : Nat)
    (h : '[' ∉ a) :
    pyFindAux ('[' :: p') (a ++ r) i = pyFindAux ('[' :: p') r (i + a.length) := by
  induction a generalizing i with
  | nil => simp
  | cons d a' ih =>
    have hcd : '[' ≠ d := fun he => h (he ▸ List.mem_cons_self d a')
    have hpre : ('[' :: p').isPrefixOf (d :: (a' ++ r)) = false := by
      simp [List.isPrefixOf, hcd]
    rw [List.cons_append, pyFindAux_cons _ _ _ _ hpre,
      ih (i + 1) (fun hm => h (List.mem_cons_of_mem d hm))]
    congr 1
    simp [List.length_cons]
    omega

/-- If `sub` occurs somewhere in `s`, the search succeeds. -/
theorem pyFindAux_isSome_of_occurs (sub s : Str) (k j : Nat)
    (h : sub.isPrefixOf (s.drop k) = true) : (pyFindAux sub s j).isSome := by
  induction s generalizing k j with
  | nil =>
    simp only [List.drop_nil] at h
    rw [pyFindAux_here _ _ _ h]
    rfl
  | cons c t ih =>
    rw [pyFindAux]
    by_cases hp : sub.isPrefixOf (c :: t) = true
    · simp [hp]
    · simp only [hp, Bool.false_eq_true, if_false]
      match k with
      | 0 => exact absurd h hp
      | k' + 1 =>
        simp only [List.drop_succ_cons] at h
        exact ih k' (j + 1) h

/-- A single character present in `s` is found. -/
theorem pyFindAux_single_isSome (c : Char) (s : Str) (j : Nat)
    (h : c ∈ s) : (pyFindAux [c] s j).isSome := by
  obtain ⟨k, hk, hget⟩ := List.mem_iff_getElem.mp h
  apply pyFindAux_isSome_of_occurs _ _ k
  have : s.drop k = c :: s.drop (k + 1) := by
    rw [List.drop_eq_getElem_cons hk, hget]
  rw [this]
  simp [List.isPrefixOf]

/-! ### Smile detector (vision/smile_detector.py) -/

namespace Vision

/-- `esp_update_interval` (seconds), as in the source. -/
def esp_update_interval : ℚ := 1/2

/-- Outcome of one `requests.get` call: a response with a status code,
or a raised exception (timeout, connection error). -/
inductive HttpGetOutcome where
  | resp (status : Nat)
  | raised
deriving DecidableEq

/-- `calculate_smile_confidence(smiles, face_width, face_height)`.
Smile rectangles are `(x, y, w, h)` tuples; arithmetic is over `ℚ`. -/
def calculate_smile_confidence (smiles : List (Nat × Nat × Nat × Nat))
    (face_width face_height : Nat) : ℚ :=
  if smiles.length = 0 then 0
  else
    let face_area : ℚ := (face_width : ℚ) * (face_height : ℚ)
    let smile_area_sum : ℚ :=
      ((smiles.map (fun r => r.2.2.1 * r.2.2.2)).sum : ℕ)
    let areaFactor : ℚ := min (smile_area_sum / face_area) 1 * (1/2)
    let numSmilesFactor : ℚ := min ((smiles.length : ℚ) / 3) 1 * (1/2)
    areaFactor + numSmilesFactor

/-- `send_to_esp32(state)` of the smile detector: skips the request
inside the rate-limit interval; otherwise performs one request, and on
success updates `last_esp_update` to the current time.  `t1` is the
time read by the interval check, `t2` the time read after a successful
request.  Returns (raised-or-not, number of requests made, new value of
`last_esp_update`). -/
def send_to_esp32 (t1 t2 last_esp_update : ℚ) (o : HttpGetOutcome) :
    Except Unit Unit × Nat × ℚ :=
  if t1 - last_esp_update < esp_update_interval then (.ok (), 0, last_esp_update)
  else
    match o with
    | .resp _ => (.ok (), 1, t2)
    | .raised => (.ok (), 1, last_esp_update)

end Vision

/-! ### Display client (ai_desk_bot.py, send_to_esp32) -/

/-- `send_to_esp32(command)` of the bot: one `requests.get` inside a
`try/except`.  Returns (result, number of requests made); the result is
`.ok b` when the function returns `b` normally and would be `.error`
if an exception escaped. -/
def send_to_esp32 (command : Str) (o : Vision.HttpGetOutcome) :
    Except Unit Bool × Nat :=
  match o with
  | .resp _ => (.ok true, 1)
  | .raised => (.ok false, 1)

/-! ### Capture thread (continuous_listen_worker) -/

/-- Outcome of one blocking capture attempt inside the worker loop. -/
inductive CaptureOutcome where
  | chunk (n : Nat)
  | failed
deriving DecidableEq

/-- Observable events of the capture thread. -/
inductive WorkerEvt where
  | enqueued (n : Nat)
  | backoffSleep (secs : Nat)
deriving DecidableEq

/-- `continuous_listen_worker`: an unbounded `while continue_listening`
loop.  Each element of the trace is the value of the shared flag read
at the top of an iteration together with that iteration's capture
outcome; a captured chunk is enqueued, a capture error is logged and
followed by `time.sleep(1)`. -/
def continuous_listen_worker : List (Bool × CaptureOutcome) → List WorkerEvt
  | [] => []
  | (flag, o) :: rest =>
    if flag then
      match o with
      | .chunk n => .enqueued n :: continuous_listen_worker rest
      | .failed => .backoffSleep 1 :: continuous_listen_worker rest
    else []

/-! ### Theorems: C10, C7, C6 -/

/-- C10: `calculate_smile_confidence` always returns a value in `[0, 1]`
for positive face dimensions; it returns exactly `0` on an empty smile
list, and otherwise the sum of an area-ratio factor capped at `1/2` and
a count factor capped at `1/2`. -/
theorem calculate_smile_confidence_bounds
    (smiles : List (Nat × Nat × Nat × Nat)) (face_width face_height : Nat)
    (hw : 0 < face_width) (hh : 0 < face_height) :
    (0 ≤ Vision.calculate_smile_confidence smiles face_width face_height ∧
      Vision.calculate_smile_confidence smiles face_width face_height ≤ 1) ∧
    (smiles = [] → Vision.calculate_smile_confidence smiles face_width face_height = 0) ∧
    (smiles ≠ [] → ∃ af nf : ℚ,
      Vision.calculate_smile_confidence smiles face_width face_height = af + nf ∧
      0 ≤ af ∧ af ≤ 1/2 ∧ 0 ≤ nf ∧ nf ≤ 1/2) := by
  have key : Vision.calculate_smile_confidence smiles face_width face_height =
      if smiles.length = 0 then 0 else
        min ((((smiles.map (fun r => r.2.2.1 * r.2.2.2)).sum : ℕ) : ℚ) /
            ((face_width : ℚ) * (face_height : ℚ))) 1 * (1/2) +
        min ((smiles.length : ℚ) / 3) 1 * (1/2) := rfl
  rw [key]
  by_cases h0 : smiles.length = 0
  · rw [if_pos h0]
    refine ⟨⟨le_refl 0, by norm_num⟩, fun _ => rfl, fun hne => ?_⟩
    exact absurd (List.length_eq_zero.mp h0) hne
  · rw [if_neg h0]
    set sa : ℚ := (((smiles.map (fun r => r.2.2.1 * r.2.2.2)).sum : ℕ) : ℚ) with hsa
    set fa : ℚ := (face_width : ℚ) * (face_height : ℚ) with hfa
    have hsa0 : 0 ≤ sa := by positivity
    have hfa0 : 0 ≤ fa := by positivity
    have hlen0 : (0 : ℚ) ≤ (smiles.length : ℚ) := by positivity
    have haf0 : 0 ≤ min (sa / fa) 1 * (1/2) := by
      apply mul_nonneg _ (by norm_num)
      exact le_min (div_nonneg hsa0 hfa0) (by norm_num)
    have haf1 : min (sa / fa) 1 * (1/2) ≤ 1/2 := by
      have := min_le_right (sa / fa) 1
      nlinarith
    have hnf0 : 0 ≤ min ((smiles.length : ℚ) / 3) 1 * (1/2) := by
      apply mul_nonneg _ (by norm_num)
      exact le_min (by positivity) (by norm_num)
    have hnf1 : min ((smiles.length : ℚ) / 3) 1 * (1/2) ≤ 1/2 := by
      have := min_le_right ((smiles.length : ℚ) / 3) 1
      nlinarith
    refine ⟨⟨by nlinarith, by nlinarith⟩, fun he => absurd (by simp [he]) h0, fun _ => ?_⟩
    exact ⟨_, _, rfl, haf0, haf1, hnf0, hnf1⟩

/-- Witness for C10 at a concrete input. -/
theorem calculate_smile_confidence_bounds_witness :
    0 < 60 ∧ (0 ≤ Vision.calculate_smile_confidence [(0, 0, 30, 20)] 60 60 ∧
      Vision.calculate_smile_confidence [(0, 0, 30, 20)] 60 60 ≤ 1) :=
  ⟨by decide,
    (calculate_smile_confidence_bounds [(0, 0, 30, 20)] 60 60 (by decide) (by decide)).1⟩

/-- C7 counterexample: the bot `send_to_esp32` returns `True` (not
`False`) when the device answers with a non-2xx status such as 500, and
the vision `send_to_esp32` performs zero outbound requests (not one)
when called inside its rate-limit interval. -/
theorem send_to_esp32_claim_false :
    ¬((send_to_esp32 ("happy".toList) (.resp 500)).1 = .ok false) ∧
    (send_to_esp32 ("happy".toList) (.resp 500)).1 = .ok true ∧
    (Vision.send_to_esp32 10 10 (49/5) .raised).2.1 = 0 := by
  refine ⟨by simp [send_to_esp32], by simp [send_to_esp32], ?_⟩
  have hlt : (10 : ℚ) - 49/5 < Vision.esp_update_interval := by
    rw [Vision.esp_update_interval]; norm_num
  simp [Vision.send_to_esp32, hlt]

/-- C7 amended: neither `send_to_esp32` variant ever lets an exception
escape; the bot variant performs exactly one outbound request and
returns `True` whenever the request completes with any status code
(including non-2xx), `False` exactly when the request raises; the
vision variant performs at most one request (zero inside the rate-limit
interval) and always returns normally.  No retry in either. -/
theorem send_to_esp32_never_raises (command : Str) (o : Vision.HttpGetOutcome) :
    (∃ b : Bool, (send_to_esp32 command o).1 = .ok b) ∧
    (send_to_esp32 command o).2 = 1 ∧
    ((send_to_esp32 command o).1 = .ok true ↔ o ≠ .raised) ∧
    (∀ (t1 t2 lu : ℚ) (p : Vision.HttpGetOutcome),
      (Vision.send_to_esp32 t1 t2 lu p).1 = .ok () ∧
      (Vision.send_to_esp32 t1 t2 lu p).2.1 ≤ 1) := by
  refine ⟨?_, ?_, ?_, ?_⟩
  · cases o <;> exact ⟨_, rfl⟩
  · cases o <;> rfl
  · cases o <;> simp [send_to_esp32]
  · intro t1 t2 lu p
    unfold Vision.send_to_esp32
    split
    · exact ⟨rfl, by norm_num⟩
    · cases p <;> exact ⟨rfl, le_refl 1⟩

/-- C6: the capture thread enqueues only while the shared continue
flag reads true — once an iteration reads the flag as false, nothing
further is enqueued; a capture error inside an iteration produces a
fixed one-second backoff and the loop goes on to the next iteration
instead of terminating. -/
theorem continuous_listen_worker_spec :
    (∀ (pre : List (Bool × CaptureOutcome)) (o : CaptureOutcome)
        (post : List (Bool × CaptureOutcome)),
      continuous_listen_worker (pre ++ (false, o) :: post) =
        continuous_listen_worker pre) ∧
    (∀ (rest : List (Bool × CaptureOutcome)) (n : Nat),
      continuous_listen_worker ((true, .chunk n) :: rest) =
        .enqueued n :: continuous_listen_worker rest) ∧
    (∀ (rest : List (Bool × CaptureOutcome)),
      continuous_listen_worker ((true, .failed) :: rest) =
        .backoffSleep 1 :: continuous_listen_worker rest) ∧
    (∀ (rest : List (Bool × CaptureOutcome)) (o : CaptureOutcome),
      continuous_listen_worker ((false, o) :: rest) = []) := by
  refine ⟨?_, fun rest n => rfl, fun rest => rfl, fun rest o => rfl⟩
  intro pre o post
  induction pre with
  | nil => rfl
  | cons hd tl ih =>
    obtain ⟨f, oc⟩ := hd
    cases f <;> cases oc <;> simp [continuous_listen_worker, ih]

/-! ### Facts about `replaceAll` -/

/-- Skipping exactly the remaining characters of a replaced occurrence. -/
theorem replaceAllAux_skip (old new q t : Str) :
    replaceAllAux old new (q ++ t) q.length = replaceAllAux old new t 0 := by
  induction q with
  | nil => rfl
  | cons c q' ih => exact ih

/-- A replacement fires at the head of `old ++ r`. -/
theorem replaceAll_head_match (old new r : Str) (hp : old ≠ []) :
    replaceAllAux old new (old ++ r) 0 = new ++ replaceAllAux old new r 0 := by
  match old, hp with
  | c :: o', _ =>
    have hpre : (c :: o').isPrefixOf ((c :: o') ++ r) = true := by
      rw [List.isPrefixOf_iff_prefix]
      exact List.prefix_append _ _
    have hcond : (c :: o').isPrefixOf (c :: (o' ++ r)) = true ∧ (c :: o') ≠ [] := by
      refine ⟨?_, by simp⟩
      exact hpre
    show replaceAllAux (c :: o') new (c :: (o' ++ r)) 0 = _
    rw [replaceAllAux, if_pos hcond]
    have hlen : (c :: o').length - 1 = o'.length := by simp
    rw [hlen, replaceAllAux_skip]

/-- Where no occurrence exists, `replaceAll` is the identity. -/
theorem replaceAll_eq_self (p v : Str)
    (h : ∀ i, occursAt p v i = false) : replaceAll p [] v = v := by
  unfold replaceAll
  induction v with
  | nil => rfl
  | cons c t ih =>
    have h0 : p.isPrefixOf (c :: t) = false := by
      have := h 0
      simpa [occursAt] using this
    rw [replaceAllAux, if_neg (by simp [h0])]
    have ht : replaceAllAux p [] t 0 = t := by
      apply ih
      intro i
      have := h (i + 1)
      simpa [occursAt] using this
    rw [ht]

/-- If `p` occurs in `u ++ p ++ v` only at index `u.length`, replacing
`p` by the empty string removes exactly that occurrence. -/
theorem replaceAll_single_occurrence (p u v : Str) (hp : p ≠ [])
    (h : ∀ i, occursAt p (u ++ p ++ v) i = true → i = u.length) :
    replaceAll p [] (u ++ p ++ v) = u ++ v := by
  induction u with
  | nil =>
    simp only [List.nil_append]
    unfold replaceAll
    rw [replaceAll_head_match p [] v hp, List.nil_append]
    have : replaceAll p [] v = v := by
      apply replaceAll_eq_self
      intro i
      by_contra hocc
      have hocc' : occursAt p (p ++ v) (p.length + i) = true := by
        simp only [occursAt, List.drop_left'] at hocc ⊢
        rw [← List.drop_drop, List.drop_left]
        simpa [occursAt] using hocc
      have h0 := h (p.length + i) (by simpa using hocc')
      have hlen : p.length ≠ 0 := fun he => hp (List.length_eq_zero.mp he)
      simp only [List.length_nil] at h0
      omega
    exact this
  | cons d u' ih =>
    have hstruct : ((d :: u') ++ p ++ v) = d :: (u' ++ p ++ v) := by simp
    rw [hstruct]
    unfold replaceAll
    have hnot : p.isPrefixOf (d :: (u' ++ p ++ v)) = false := by
      by_contra hyes
      have hyes' : occursAt p (d :: (u' ++ p ++ v)) 0 = true := by
        simp only [occursAt, List.drop_zero]
        revert hyes
        cases hb : p.isPrefixOf (d :: (u' ++ p ++ v)) <;> simp
      have := h 0 (by rw [hstruct]; exact hyes')
      simp at this
    rw [replaceAllAux, if_neg (fun hc => by rw [hnot] at hc; exact absurd hc.1 (by simp))]
    have ht := ih (fun i hi => by
      have : occursAt p ((d :: u') ++ p ++ v) (i + 1) = true := by
        rw [hstruct]
        simpa [occursAt] using hi
      have := h (i + 1) this
      simpa using this)
    unfold replaceAll at ht
    rw [ht]
    rfl

/-- Any occurrence fits inside the string. -/
theorem occursAt_length (p s : Str) (i : Nat) (hp : p ≠ [])
    (h : occursAt p s i = true) : i + p.length ≤ s.length := by
  have hpre : p <+: s.drop i := by
    rw [← List.isPrefixOf_iff_prefix]
    exact h
  have hle := hpre.length_le
  rw [List.length_drop] at hle
  have hlen : p.length ≠ 0 := fun he => hp (List.length_eq_zero.mp he)
  omega

/-! ### Activation gate (process_audio, lines 460-484) -/

/-- The fixed activation phrase list. -/
def activation_phrases : List Str :=
  ["hey bot".toList, "hey desk bot".toList, "emo".toList,
   "emodesk".toList, "hi bot".toList, "hello bot".toList]

/-- The activation loop of `process_audio`: try each phrase in order;
on the first phrase contained in the text, strip it via
`text.replace(phrase, "").strip()` and report activation. -/
def activationScan : List Str → Str → Bool × Str
  | [], text => (false, text)
  | phrase :: rest, text =>
    if containsSub text phrase then (true, pyStrip (replaceAll phrase [] text))
    else activationScan rest text

/-- The value-level behaviour of the activation gate in `process_audio`
(the Google-recognizer path, whose input is already lower-cased): on
activation or in always-listen mode, a non-empty remainder is returned
as the effective command; an empty remainder triggers one synchronous
follow-up listen, whose transcription result is the `follow_up`
parameter; otherwise the utterance is ignored (`none`).  The attendant
side effects (neutral face, acknowledgement speech) are not part of
this value. -/
def processAudioGate (always_listen : Bool) (follow_up : Option Str)
    (text : Str) : Option Str :=
  match activationScan activation_phrases text with
  | (activated, t) =>
    if activated || always_listen then
      if t ≠ [] then some t else follow_up
    else none

/-- A scan over phrases none of which occurs leaves the text unchanged
and reports no activation. -/
theorem activationScan_no_match (ps : List Str) (text : Str)
    (h : ∀ p ∈ ps, containsSub text p = false) :
    activationScan ps text = (false, text) := by
  induction ps with
  | nil => rfl
  | cons p rest ih =>
    rw [activationScan, if_neg]
    · exact ih fun q hq => h q (List.mem_cons_of_mem p hq)
    · simp [h p (List.mem_cons_self p rest)]

/-- An occurrence at some index makes `containsSub` true. -/
theorem containsSub_of_occurs (s p : Str) (k : Nat)
    (h : occursAt p s k = true) : containsSub s p = true := by
  unfold containsSub pyFind
  have := pyFindAux_isSome_of_occurs p s k 0 h
  revert this
  cases pyFindAux p s 0 <;> simp

/-! ### Theorems: C2, C3 -/

/-- C2 counterexample: on `"hey bot hey bot hello"` the first matching
phrase is `"hey bot"`, occurring first at index 0 (so removing exactly
that one occurrence would yield `" hey bot hello"`), but the gate
returns `"hello"`: `str.replace` removes every occurrence and
`str.strip` trims the surrounding whitespace. -/
theorem processAudioGate_strips_all_occurrences_cex :
    ("hey bot hey bot hello".toList : Str) =
      "hey bot".toList ++ " hey bot hello".toList ∧
    processAudioGate false none ("hey bot hey bot hello".toList) =
      some ("hello".toList) ∧
    ¬(processAudioGate false none ("hey bot hey bot hello".toList) =
      some (" hey bot hello".toList)) := by
  decide

/-- The scan picks the first phrase of the list contained in the text
and strips it via `text.replace(phrase, "").strip()`. -/
theorem activationScan_first_match (text : Str) (ps1 ps2 : List Str) (p : Str)
    (h1 : ∀ q ∈ ps1, containsSub text q = false)
    (h2 : containsSub text p = true) :
    activationScan (ps1 ++ p :: ps2) text =
      (true, pyStrip (replaceAll p [] text)) := by
  induction ps1 with
  | nil =>
    rw [List.nil_append, activationScan, if_pos h2]
  | cons q qs ih =>
    have hq : containsSub text q = false := h1 q (List.mem_cons_self q qs)
    rw [List.cons_append, activationScan, if_neg (by simp [hq])]
    exact ih fun r hr => h1 r (List.mem_cons_of_mem q hr)

/-- The gate on a text whose first matching activation phrase is `p`
(`activation_phrases = ps1 ++ p :: ps2` with no phrase of `ps1`
contained in the text): it returns the text with every occurrence of
`p` removed and surrounding whitespace stripped. -/
theorem processAudioGate_first_match (text : Str) (ps1 ps2 : List Str)
    (p : Str) (follow_up : Option Str)
    (hlist : activation_phrases = ps1 ++ p :: ps2)
    (h1 : ∀ q ∈ ps1, containsSub text q = false)
    (h2 : containsSub text p = true)
    (hne : pyStrip (replaceAll p [] text) ≠ []) :
    processAudioGate false follow_up text =
      some (pyStrip (replaceAll p [] text)) := by
  have hscan : activationScan activation_phrases text =
      (true, pyStrip (replaceAll p [] text)) := by
    rw [hlist]
    exact activationScan_first_match text ps1 ps2 p h1 h2
  simp only [processAudioGate, hscan]
  simp [hne]

/-- C2 amended: for every transcribed text whose first matching
activation phrase is `p` (any of the six, in list order), the gate
returns the text with every occurrence of `p` removed and with leading
and trailing whitespace stripped; in particular, when `p` occurs
exactly once, at position `u.length` in `u ++ p ++ v`, the returned
effective command is the remainder `u ++ v` with surrounding
whitespace trimmed, otherwise unchanged. -/
theorem processAudioGate_strip_spec :
    (∀ (ps1 ps2 : List Str) (p text : Str) (follow_up : Option Str),
      activation_phrases = ps1 ++ p :: ps2 →
      (∀ q ∈ ps1, containsSub text q = false) →
      containsSub text p = true →
      pyStrip (replaceAll p [] text) ≠ [] →
      processAudioGate false follow_up text =
        some (pyStrip (replaceAll p [] text))) ∧
    (∀ (ps1 ps2 : List Str) (p u v : Str) (follow_up : Option Str),
      activation_phrases = ps1 ++ p :: ps2 →
      (∀ q ∈ ps1, containsSub (u ++ p ++ v) q = false) →
      (∀ i ∈ List.range (u.length + p.length + v.length),
        occursAt p (u ++ p ++ v) i = true → i = u.length) →
      pyStrip (u ++ v) ≠ [] →
      processAudioGate false follow_up (u ++ p ++ v) =
        some (pyStrip (u ++ v))) := by
  constructor
  · intro ps1 ps2 p text follow_up hlist h1 h2 hne
    exact processAudioGate_first_match text ps1 ps2 p follow_up hlist h1 h2 hne
  · intro ps1 ps2 p u v follow_up hlist h1 hu hne
    have hpmem : p ∈ activation_phrases := by
      rw [hlist]
      exact List.mem_append_right _ (List.mem_cons_self _ _)
    have hp : p ≠ [] := by
      have hall : ∀ q ∈ activation_phrases, q ≠ [] := by decide
      exact hall p hpmem
    have hplen1 : 1 ≤ p.length := by
      cases p with
      | nil => exact absurd rfl hp
      | cons c t => simp
    have hocc : occursAt p (u ++ p ++ v) u.length = true := by
      simp only [occursAt, List.append_assoc, List.drop_left]
      rw [List.isPrefixOf_iff_prefix]
      exact List.prefix_append _ _
    have h2 := containsSub_of_occurs _ _ _ hocc
    have hS : ∀ i, occursAt p (u ++ p ++ v) i = true → i = u.length := by
      intro i hi
      have hb := occursAt_length _ _ i hp hi
      have hlen : (u ++ p ++ v).length = u.length + p.length + v.length := by
        simp [List.length_append]
        omega
      rw [hlen] at hb
      refine hu i ?_ hi
      rw [List.mem_range]
      omega
    have hrepl := replaceAll_single_occurrence p u v hp hS
    have hne' : pyStrip (replaceAll p [] (u ++ p ++ v)) ≠ [] := by
      rw [hrepl]
      exact hne
    have hres := processAudioGate_first_match (u ++ p ++ v) ps1 ps2 p follow_up
      hlist h1 h2 hne'
    rw [hrepl] at hres
    exact hres

/-- Witness for C2: the every-occurrence clause at
`"hey bot hey bot hello"` (first matching phrase `"hey bot"`) and the
single-occurrence clause at `"emo lights on"` (first matching phrase
`"emo"`, third in the list). -/
theorem processAudioGate_strip_spec_witness :
    processAudioGate false none ("hey bot hey bot hello".toList) =
      some (pyStrip (replaceAll ("hey bot".toList) []
        ("hey bot hey bot hello".toList))) ∧
    processAudioGate false none ([] ++ "emo".toList ++ " lights on".toList) =
      some (pyStrip ([] ++ " lights on".toList)) := by
  constructor
  · exact processAudioGate_strip_spec.1 []
      ["hey desk bot".toList, "emo".toList, "emodesk".toList,
        "hi bot".toList, "hello bot".toList]
      ("hey bot".toList) ("hey bot hey bot hello".toList) none
      (by decide) (by decide) (by decide) (by decide)
  · exact processAudioGate_strip_spec.2
      ["hey bot".toList, "hey desk bot".toList]
      ["emodesk".toList, "hi bot".toList, "hello bot".toList]
      ("emo".toList) [] (" lights on".toList) none
      (by decide) (by decide) (by decide) (by decide)

/-- C3 counterexample: in always-listen mode the input
`"hey bot what time is it"` is not returned unchanged — the activation
phrase is still stripped first. -/
theorem processAudioGate_always_listen_cex :
    processAudioGate true none ("hey bot what time is it".toList) =
      some ("what time is it".toList) ∧
    ¬(processAudioGate true none ("hey bot what time is it".toList) =
      some ("hey bot what time is it".toList)) := by
  decide

/-- C3 amended: in always-listen mode, every non-empty transcribed text
containing no activation phrase is returned unchanged as the effective
command; a text containing an activation phrase is not returned
unchanged (the phrase is stripped exactly as in gated mode, see the
counterexample). -/
theorem processAudioGate_always_listen_no_phrase (follow_up : Option Str)
    (text : Str)
    (h : ∀ p ∈ activation_phrases, containsSub text p = false)
    (hne : text ≠ []) :
    processAudioGate true follow_up text = some text := by
  have hscan := activationScan_no_match activation_phrases text h
  simp only [processAudioGate, hscan]
  simp [hne]

/-- Witness for C3 at the concrete input `"what time is it"`. -/
theorem processAudioGate_always_listen_no_phrase_witness :
    processAudioGate true none ("what time is it".toList) =
      some ("what time is it".toList) :=
  processAudioGate_always_listen_no_phrase none ("what time is it".toList)
    (by decide) (by decide)

/-! ### Conversation transcript and display client (ai_desk_bot.py) -/

/-- Role tag of a transcript entry. -/
inductive Role where
  | system
  | user
  | assistant
deriving DecidableEq

/-- One entry of `conversation_history`. -/
structure Msg where
  role : Role
  content : Str
deriving DecidableEq

/-- Contents of the user-role entries of a transcript. -/
def userContents (l : List Msg) : List Str :=
  (l.filter (fun m => decide (m.role = Role.user))).map Msg.content

/-- Contents of the assistant-role entries of a transcript. -/
def assistantContents (l : List Msg) : List Str :=
  (l.filter (fun m => decide (m.role = Role.assistant))).map Msg.content

/-- The marker opening a display directive. -/
def displayMarker : Str := "[DISPLAY:".toList

/-- The character list `"]"`. -/
def closeBracket : Str := "]".toList

/-- The fixed apology string returned by both chat functions on any
failure. -/
def apology_text : Str :=
  "Sorry, I encountered an error while processing your request.".toList

/-- The `if/elif` dispatch chain of `process_display_commands`: the
ESP32 commands sent for an extracted (lower-cased) display command.
`current_time` stands for the value of `get_time()`; `get_weather()`
is the fixed stub `sunny, 72`. -/
def dispatchDisplay (current_time : Str) (command : Str) : List Str :=
  if command = "happy".toList then ["happy".toList]
  else if command = "sad".toList then ["sad".toList]
  else if command = "neutral".toList then ["neutral".toList]
  else if command = "angry".toList then ["angry".toList]
  else if command = "grinning".toList then ["grinning".toList]
  else if command = "scared".toList then ["scared".toList]
  else if command = "time".toList then ["text:Time: ".toList ++ current_time]
  else if command = "weather".toList then ["text:Sunny, 72°F".toList]
  else if ("text:".toList).isPrefixOf command then [command]
  else []

/-- `process_display_commands(response)`: find the first bracketed
directive, dispatch it to the ESP32, and strip it from the text.
Returns the cleaned text and the list of ESP32 commands sent. -/
def process_display_commands (current_time : Str) (response : Str) :
    Str × List Str :=
  match pyFind response displayMarker with
  | none => (response, [])
  | some start_idx =>
    match pyFindFrom response closeBracket start_idx with
    | none => (response, [])
    | some end_idx =>
      if start_idx < end_idx then
        let command := strLower (pySlice response (start_idx + 9) end_idx)
        (response.take start_idx ++ response.drop (end_idx + 1),
          dispatchDisplay current_time command)
      else (response, [])

/-! ### Text to speech (speak_with_openai_tts, speak_text) -/

/-- Outcome of the cloud TTS attempt inside `speak_with_openai_tts`:
a 200 response, a non-200 response, or an exception raised inside the
function's outer `try` block (during the request, file handling or
playback). -/
inductive TtsOutcome where
  | ok
  | httpError (status : Nat)
  | exn
deriving DecidableEq

/-- Observable speech events. -/
inductive SpeakEvt where
  | cloudPlayed
  | localPlayed
deriving DecidableEq

/-- `speak_with_openai_tts(text, voice)`: empty text returns at once;
a 200 response is played via pygame (whose errors are caught by an
inner handler); a non-200 response is merely printed; any exception is
caught by the blanket `except` and printed.  The function therefore
always returns normally (`.ok`), never raising to its caller. -/
def speak_with_openai_tts (text : Str) (o : TtsOutcome) :
    Except Unit (List SpeakEvt) :=
  if text = [] then .ok []
  else
    match o with
    | .ok => .ok [.cloudPlayed]
    | .httpError _ => .ok []
    | .exn => .ok []

/-- `speak_text(text, use_openai_tts, voice)`: tries the cloud path
when enabled, setting `success := False` only if
`speak_with_openai_tts` raises; falls back to the local pyttsx3 engine
(whose availability is `local_ok`) when the cloud path is disabled or
`success` is false.  Returns the list of speech events. -/
def speak_text (text : Str) (use_openai_tts : Bool) (o : TtsOutcome)
    (local_ok : Bool) : List SpeakEvt :=
  match
    (if use_openai_tts then
      match speak_with_openai_tts text o with
      | .ok evts => (true, evts)
      | .error _ => (false, [])
    else (false, [])) with
  | (success, evts) =>
    if !use_openai_tts || !success then
      evts ++ (if local_ok then [.localPlayed] else [])
    else evts

/-! ### Chat pipeline, single-shot variant (chat_with_ai) -/

/-- Outcome of the single-shot chat HTTP request: a response with a
status code and (for well-formed 200 bodies) the assistant text, or an
exception anywhere inside the `try` block (request failure, malformed
JSON body). -/
inductive ChatHttp where
  | resp (status : Nat) (content : Str)
  | exn
deriving DecidableEq

/-- Result of a chat call: the returned reply, the new transcript, and
the ESP32 commands sent along the way. -/
structure ChatResult where
  reply : Str
  history : List Msg
  esp32Sends : List Str
deriving DecidableEq

/-- `chat_with_ai(user_input)`: appends the user turn, issues one
request over the full transcript; a non-200 status or an exception
yields the fixed apology without an assistant turn; on 200 the
assistant text is appended and the display directive processed. -/
def chat_with_ai (current_time : Str) (hist : List Msg) (user_input : Str)
    (h : ChatHttp) : ChatResult :=
  let hist1 := hist ++ [⟨Role.user, user_input⟩]
  match h with
  | .exn => ⟨apology_text, hist1, []⟩
  | .resp status content =>
    if status ≠ 200 then ⟨apology_text, hist1, []⟩
    else
      let hist2 := hist1 ++ [⟨Role.assistant, content⟩]
      match process_display_commands current_time content with
      | (cleaned, sends) => ⟨cleaned, hist2, sends⟩

/-! ### Chat pipeline, streaming variant (chat_with_ai_stream) -/

/-- One line of the streamed response body: a `data:` frame whose JSON
decodes to a content delta, any other line (keep-alive, non-data, or a
malformed frame skipped by the `JSONDecodeError` handler), or the
`data: [DONE]` sentinel. -/
inductive StreamItem where
  | frag (content : Str)
  | other
  | done
deriving DecidableEq

/-- Loop state of the streaming consumer. -/
structure StreamState where
  full_response : Str
  buffer : Str
  display_cmd : Option Str
  dispatches : List Str
deriving DecidableEq

/-- Python truthiness of the `display_cmd` variable (`None` and the
empty string are falsy). -/
def pyTruthy : Option Str → Bool
  | none => false
  | some s => s ≠ []

/-- The `if/elif` dispatch chain duplicated inline in
`chat_with_ai_stream` (identical commands; unknown non-`text:` tags
dispatch nothing). -/
def dispatchDisplayStream (current_time : Str) (command : Str) : List Str :=
  if command = "happy".toList then ["happy".toList]
  else if command = "sad".toList then ["sad".toList]
  else if command = "neutral".toList then ["neutral".toList]
  else if command = "angry".toList then ["angry".toList]
  else if command = "grinning".toList then ["grinning".toList]
  else if command = "scared".toList then ["scared".toList]
  else if command = "time".toList then ["text:Time: ".toList ++ current_time]
  else if command = "weather".toList then ["text:Sunny, 72°F".toList]
  else if ("text:".toList).isPrefixOf command then [command]
  else []

/-- Processing of one non-empty content delta inside the streaming
loop: extend `full_response` and `buffer`, and if the buffer now
contains both markers and no directive was dispatched yet, extract the
tag and dispatch it immediately. -/
def streamStep (current_time : Str) (st : StreamState) (delta_content : Str) :
    StreamState :=
  if delta_content = [] then st
  else
    let full_response := st.full_response ++ delta_content
    let buffer := st.buffer ++ delta_content
    if (pyFind buffer displayMarker).isSome && (pyFind buffer closeBracket).isSome
        && !(pyTruthy st.display_cmd) then
      match pyFind buffer displayMarker with
      | none => ⟨full_response, buffer, st.display_cmd, st.dispatches⟩
      | some start_idx =>
        match pyFindFrom buffer closeBracket start_idx with
        | none => ⟨full_response, buffer, st.display_cmd, st.dispatches⟩
        | some end_idx =>
          if start_idx < end_idx then
            let display_cmd := strLower (pySlice buffer (start_idx + 9) end_idx)
            ⟨full_response, buffer, some display_cmd,
              st.dispatches ++ dispatchDisplayStream current_time display_cmd⟩
          else ⟨full_response, buffer, st.display_cmd, st.dispatches⟩
    else ⟨full_response, buffer, st.display_cmd, st.dispatches⟩

/-- Consume the streamed lines: `done` breaks the loop, other lines are
skipped, content deltas go through `streamStep`. -/
def runStream (current_time : Str) : List StreamItem → StreamState → StreamState
  | [], st => st
  | .done :: _, st => st
  | .other :: rest, st => runStream current_time rest st
  | .frag d :: rest, st => runStream current_time rest (streamStep current_time st d)

/-- Outcome of the streaming chat HTTP request. -/
inductive StreamHttp where
  | resp (status : Nat) (items : List StreamItem)
  | exn
deriving DecidableEq

/-- `chat_with_ai_stream(user_input)`: appends the user turn, sends a
neutral face, issues the streamed request; non-200 or an exception
yields the fixed apology without an assistant turn; otherwise the
stream is consumed incrementally (dispatching a directive as soon as
its markers complete), then the full assistant text is appended to the
transcript and cleaned through `process_display_commands` (which
dispatches the first directive again). -/
def chat_with_ai_stream (current_time : Str) (hist : List Msg)
    (user_input : Str) (h : StreamHttp) : ChatResult :=
  let hist1 := hist ++ [⟨Role.user, user_input⟩]
  match h with
  | .exn => ⟨apology_text, hist1, ["neutral".toList]⟩
  | .resp status items =>
    if status ≠ 200 then ⟨apology_text, hist1, ["neutral".toList]⟩
    else
      match runStream current_time items ⟨[], [], none, []⟩ with
      | st =>
        let hist2 := hist1 ++ [⟨Role.assistant, st.full_response⟩]
        match process_display_commands current_time st.full_response with
        | (cleaned, finalSends) =>
          ⟨cleaned, hist2, "neutral".toList :: (st.dispatches ++ finalSends)⟩

/-! ### Theorems: C4, C5, C9 -/

/-- C4: a non-200 response status makes both chat functions return the
fixed apology string, with the transcript extended by the user turn
only — no assistant-role entry is appended. -/
theorem chat_non200_apology (current_time : Str) (hist : List Msg)
    (user_input : Str) (status : Nat) (content : Str)
    (items : List StreamItem) (h : status ≠ 200) :
    chat_with_ai current_time hist user_input (.resp status content) =
      ⟨apology_text, hist ++ [⟨Role.user, user_input⟩], []⟩ ∧
    chat_with_ai_stream current_time hist user_input (.resp status items) =
      ⟨apology_text, hist ++ [⟨Role.user, user_input⟩], ["neutral".toList]⟩ ∧
    assistantContents (hist ++ [⟨Role.user, user_input⟩]) =
      assistantContents hist := by
  refine ⟨?_, ?_, ?_⟩
  · simp [chat_with_ai, h]
  · simp [chat_with_ai_stream, h]
  · simp [assistantContents, List.filter_append]

/-- Witness for C4 at status 500. -/
theorem chat_non200_apology_witness :
    chat_with_ai [] [] ("hi".toList) (.resp 500 ("oops".toList)) =
      ⟨apology_text, [⟨Role.user, "hi".toList⟩], []⟩ ∧
    chat_with_ai_stream [] [] ("hi".toList) (.resp 500 []) =
      ⟨apology_text, [⟨Role.user, "hi".toList⟩], ["neutral".toList]⟩ ∧
    assistantContents ([] ++ [⟨Role.user, "hi".toList⟩]) =
      assistantContents ([] : List Msg) :=
  chat_non200_apology [] [] ("hi".toList) 500 ("oops".toList) [] (by decide)

/-- C5: evaluation at the failing inputs.  With the cloud TTS path
enabled and the speech API failing — a non-200 status or an exception
inside `speak_with_openai_tts` — no fallback to the local pyttsx3
engine happens and nothing is spoken at all, because
`speak_with_openai_tts` swallows every failure and returns normally,
so `speak_text` sees `success = True`.  The local engine is reachable
only when the cloud path is disabled. -/
theorem speak_text_no_fallback_on_failure :
    speak_text ("hello".toList) true (.httpError 500) true = [] ∧
    speak_text ("hello".toList) true .exn true = [] ∧
    speak_text ("hello".toList) false .ok true = [.localPlayed] ∧
    (∀ (text : Str) (o : TtsOutcome),
      ∃ evts, speak_with_openai_tts text o = .ok evts) := by
  refine ⟨by decide, by decide, by decide, ?_⟩
  intro text o
  unfold speak_with_openai_tts
  by_cases ht : text = []
  · simp [ht]
  · cases o <;> simp [ht]

/-- C9: each chat call appends exactly one user-role entry carrying the
user input to the transcript, and on failure (exception or non-200
status) the resulting transcript is exactly the old transcript plus
that user turn — the entry is never rolled back, so it is re-sent with
every later request. -/
theorem chat_user_turn_retained (current_time : Str) (hist : List Msg)
    (user_input : Str) (h : ChatHttp) (hs : StreamHttp) :
    userContents (chat_with_ai current_time hist user_input h).history =
      userContents hist ++ [user_input] ∧
    userContents (chat_with_ai_stream current_time hist user_input hs).history =
      userContents hist ++ [user_input] ∧
    (chat_with_ai current_time hist user_input .exn).history =
      hist ++ [⟨Role.user, user_input⟩] ∧
    (chat_with_ai_stream current_time hist user_input .exn).history =
      hist ++ [⟨Role.user, user_input⟩] ∧
    (∀ status content, status ≠ 200 →
      (chat_with_ai current_time hist user_input (.resp status content)).history =
        hist ++ [⟨Role.user, user_input⟩]) ∧
    (∀ status items, status ≠ 200 →
      (chat_with_ai_stream current_time hist user_input (.resp status items)).history =
        hist ++ [⟨Role.user, user_input⟩]) := by
  refine ⟨?_, ?_, by simp [chat_with_ai], by simp [chat_with_ai_stream],
    fun status content hne => by simp [chat_with_ai, hne],
    fun status items hne => by simp [chat_with_ai_stream, hne]⟩
  · cases h with
    | exn => simp [chat_with_ai, userContents, List.filter_append]
    | resp status content =>
      by_cases hst : status ≠ 200
      · simp [chat_with_ai, hst, userContents, List.filter_append]
      · push_neg at hst
        subst hst
        rcases hpd : process_display_commands current_time content with ⟨cleaned, sends⟩
        simp [chat_with_ai, hpd, userContents, List.filter_append]
  · cases hs with
    | exn => simp [chat_with_ai_stream, userContents, List.filter_append]
    | resp status items =>
      by_cases hst : status ≠ 200
      · simp [chat_with_ai_stream, hst, userContents, List.filter_append]
      · push_neg at hst
        subst hst
        rcases hpd : process_display_commands current_time
            (runStream current_time items ⟨[], [], none, []⟩).full_response with
          ⟨cleaned, sends⟩
        simp [chat_with_ai_stream, hpd, userContents, List.filter_append]

/-! ### Locating the happy directive inside a reply -/

/-- The complete happy directive. -/
def happyDirective : Str := "[DISPLAY:happy]".toList

/-- First occurrence of the display marker in `a ++ happyDirective ++ r`
when `a` contains no `'['`. -/
theorem pyFind_marker_after (a r : Str) (h : '[' ∉ a) :
    pyFind (a ++ happyDirective ++ r) displayMarker = some a.length := by
  have hsplit : a ++ happyDirective ++ r =
      a ++ ('[' :: ("DISPLAY:happy]".toList ++ r)) := by
    rw [List.append_assoc]
    rfl
  have hD : ("DISPLAY:happy]".toList : Str) =
      "DISPLAY:".toList ++ "happy]".toList := by decide
  have h2 : ('[' :: ("DISPLAY:happy]".toList ++ r) : Str) =
      ('[' :: "DISPLAY:".toList) ++ ("happy]".toList ++ r) := by
    rw [hD, List.append_assoc]
    rfl
  have hpre : (('[' :: "DISPLAY:".toList) : Str).isPrefixOf
      ('[' :: ("DISPLAY:happy]".toList ++ r)) = true := by
    rw [List.isPrefixOf_iff_prefix, h2]
    exact List.prefix_append _ _
  have hm : displayMarker = '[' :: "DISPLAY:".toList := by decide
  unfold pyFind
  rw [hsplit, hm, pyFindAux_skip_block _ a _ 0 h, pyFindAux_here _ _ _ hpre]
  simp

/-- First close bracket at or after the marker position in
`a ++ happyDirective ++ r`. -/
theorem pyFindFrom_close_after (a r : Str) :
    pyFindFrom (a ++ happyDirective ++ r) closeBracket a.length =
      some (a.length + 14) := by
  unfold pyFindFrom
  have hdrop : (a ++ happyDirective ++ r).drop a.length = happyDirective ++ r := by
    rw [List.append_assoc]
    exact List.drop_left a (happyDirective ++ r)
  rw [hdrop]
  have hsplit : (happyDirective ++ r : Str) =
      "[DISPLAY:happy".toList ++ (']' :: r) := by
    have h2 : (happyDirective : Str) = "[DISPLAY:happy".toList ++ [']'] := by decide
    rw [h2, List.append_assoc]
    rfl
  have hcb : closeBracket = [']'] := by decide
  rw [hsplit, hcb, pyFindAux_single_after ']' _ r a.length (by decide)]
  have hq : ("[DISPLAY:happy".toList : Str).length = 14 := by decide
  rw [hq]

/-- Slicing out the tag between the markers yields `"happy"`. -/
theorem pySlice_happy (a r : Str) :
    pySlice (a ++ happyDirective ++ r) (a.length + 9) (a.length + 14) =
      "happy".toList := by
  unfold pySlice
  have h1 : a.length + 14 - (a.length + 9) = 5 := by omega
  rw [h1]
  have hdrop : (a ++ happyDirective ++ r).drop (a.length + 9) =
      "happy".toList ++ (']' :: r) := by
    rw [List.append_assoc, ← List.drop_drop, List.drop_left]
    have hsplit : (happyDirective ++ r : Str) =
        displayMarker ++ ("happy".toList ++ (']' :: r)) := by
      have h2 : (happyDirective : Str) =
          displayMarker ++ ("happy".toList ++ [']']) := by decide
      rw [h2, List.append_assoc, List.append_assoc]
      rfl
    rw [hsplit]
    exact List.drop_left' (by decide)
  rw [hdrop]
  exact List.take_left' (by decide)

/-- `process_display_commands` on a reply holding the happy directive
after a bracket-free prefix: it dispatches `happy` once and strips the
directive. -/
theorem process_display_commands_happy (ct a b : Str) (ha : '[' ∉ a) :
    process_display_commands ct (a ++ happyDirective ++ b) =
      (a ++ b, ["happy".toList]) := by
  unfold process_display_commands
  simp only [pyFind_marker_after a b ha, pyFindFrom_close_after a b]
  have hlt : a.length < a.length + 14 := by omega
  rw [if_pos hlt]
  have hcmd : strLower (pySlice (a ++ happyDirective ++ b) (a.length + 9)
      (a.length + 14)) = "happy".toList := by
    rw [pySlice_happy]
    decide
  have htake : (a ++ happyDirective ++ b).take a.length = a := by
    rw [List.append_assoc]
    exact List.take_left a _
  have hdrop : (a ++ happyDirective ++ b).drop (a.length + 14 + 1) = b := by
    apply List.drop_left'
    have h15 : (happyDirective : Str).length = 15 := by decide
    rw [List.length_append, h15]
  rw [hcmd, htake, hdrop]
  have hdisp : dispatchDisplay ct ("happy".toList) = ["happy".toList] := by
    simp [dispatchDisplay]
  rw [hdisp]

/-! ### The streaming-loop invariant -/

/-- Invariant of the streaming loop while consuming a reply of the form
`a ++ happyDirective ++ b` with `a` bracket-free: the accumulated text
`t` is mirrored in `full_response` and `buffer`, and the directive has
been dispatched exactly once as soon as the closing bracket arrived. -/
def streamInv (t : Str) (st : StreamState) : Prop :=
  st.full_response = t ∧ st.buffer = t ∧
    (if ']' ∈ t then
      st.display_cmd = some ("happy".toList) ∧ st.dispatches = ["happy".toList]
    else st.display_cmd = none ∧ st.dispatches = [])

/-- A prefix of `a ++ happyDirective ++ b` containing a close bracket
extends past the whole directive. -/
theorem prefix_decomp (a b t' : Str) (ha2 : ']' ∉ a)
    (hpre : t' <+: a ++ happyDirective ++ b) (hmem : ']' ∈ t') :
    ∃ b1, t' = a ++ happyDirective ++ b1 := by
  have hq14 : ("[DISPLAY:happy".toList : Str).length = 14 := by decide
  have h15 : (happyDirective : Str).length = 15 := by decide
  have hlen : a.length + 15 ≤ t'.length := by
    by_contra hlt
    push_neg at hlt
    have ht' : t' = (a ++ happyDirective ++ b).take t'.length :=
      List.prefix_iff_eq_take.mp hpre
    have hT : a ++ happyDirective ++ b =
        (a ++ "[DISPLAY:happy".toList) ++ (']' :: b) := by
      have h2 : (happyDirective : Str) = "[DISPLAY:happy".toList ++ [']'] := by
        decide
      rw [h2]
      simp [List.append_assoc]
    have h14 : (a ++ happyDirective ++ b).take (a.length + 14) =
        a ++ "[DISPLAY:happy".toList := by
      rw [hT]
      apply List.take_left'
      rw [List.length_append, hq14]
    have hsub : t' <+: a ++ "[DISPLAY:happy".toList := by
      rw [ht', ← h14]
      exact List.take_prefix_take_left _ (by omega)
    have hmem2 : ']' ∈ a ++ "[DISPLAY:happy".toList :=
      hsub.sublist.subset hmem
    rcases List.mem_append.mp hmem2 with hc | hc
    · exact ha2 hc
    · revert hc
      decide
  have hADprefix : (a ++ happyDirective) <+: t' := by
    have hAD : a ++ happyDirective = (a ++ happyDirective ++ b).take (a.length + 15) := by
      symm
      apply List.take_left'
      rw [List.length_append, h15]
    have ht' : t' = (a ++ happyDirective ++ b).take t'.length :=
      List.prefix_iff_eq_take.mp hpre
    rw [hAD, ht']
    exact List.take_prefix_take_left _ (by omega)
  obtain ⟨b1, hb1⟩ := hADprefix
  exact ⟨b1, hb1.symm⟩

/-- `streamStep` preserves the invariant. -/
theorem streamStep_inv (ct a b t d : Str) (ha1 : '[' ∉ a) (ha2 : ']' ∉ a)
    (hpre : (t ++ d) <+: a ++ happyDirective ++ b)
    (st : StreamState) (hinv : streamInv t st) :
    streamInv (t ++ d) (streamStep ct st d) := by
  obtain ⟨hfull, hbuf, hcond⟩ := hinv
  by_cases hd : d = []
  · subst hd
    rw [List.append_nil]
    unfold streamStep
    rw [if_pos rfl]
    exact ⟨hfull, hbuf, hcond⟩
  · unfold streamStep
    rw [if_neg hd]
    simp only [hfull, hbuf]
    by_cases hmemt : ']' ∈ t
    · rw [if_pos hmemt] at hcond
      obtain ⟨hdc, hdisp⟩ := hcond
      have htruthy : pyTruthy st.display_cmd = true := by
        rw [hdc]
        decide
      rw [htruthy]
      simp only [Bool.not_true, Bool.and_false]
      refine ⟨rfl, rfl, ?_⟩
      rw [if_pos (List.mem_append_left d hmemt)]
      exact ⟨hdc, hdisp⟩
    · rw [if_neg hmemt] at hcond
      obtain ⟨hdc, hdisp⟩ := hcond
      by_cases hmem : ']' ∈ t ++ d
      · obtain ⟨b1, hb1⟩ := prefix_decomp a b (t ++ d) ha2 hpre hmem
        have hfind1 : pyFind (t ++ d) displayMarker = some a.length := by
          rw [hb1]
          exact pyFind_marker_after a b1 ha1
        have hfind2 : (pyFind (t ++ d) closeBracket).isSome = true := by
          have hcb : closeBracket = [']'] := by decide
          rw [hcb]
          exact pyFindAux_single_isSome ']' (t ++ d) 0 hmem
        have hfrom : pyFindFrom (t ++ d) closeBracket a.length =
            some (a.length + 14) := by
          rw [hb1]
          exact pyFindFrom_close_after a b1
        have htruthy : pyTruthy st.display_cmd = false := by
          rw [hdc]
          rfl
        rw [hfind1, htruthy]
        simp only [Option.isSome_some, Bool.true_and, hfind2, Bool.not_false,
          Bool.and_true, if_true]
        rw [hfrom]
        simp only []
        have hlt : a.length < a.length + 14 := by omega
        rw [if_pos hlt]
        have hcmd : strLower (pySlice (t ++ d) (a.length + 9) (a.length + 14)) =
            "happy".toList := by
          rw [hb1, pySlice_happy]
          decide
        rw [hcmd]
        refine ⟨rfl, rfl, ?_⟩
        rw [if_pos hmem]
        constructor
        · rfl
        · rw [hdisp]
          simp [dispatchDisplayStream]
      · have hnone : pyFind (t ++ d) closeBracket = none := by
          have hcb : closeBracket = [']'] := by decide
          rw [hcb]
          exact pyFindAux_single_none ']' (t ++ d) 0 hmem
        rw [hnone]
        simp only [Option.isSome_none, Bool.false_and, Bool.and_false,
          Bool.false_and, if_false]
        refine ⟨rfl, rfl, ?_⟩
        rw [if_neg hmem]
        exact ⟨hdc, hdisp⟩

/-- Running the stream over fragment items preserves the invariant over
the concatenation of the fragments. -/
theorem runStream_inv (ct a b : Str) (ha1 : '[' ∉ a) (ha2 : ']' ∉ a)
    (ds : List Str) :
    ∀ (t : Str) (st : StreamState), streamInv t st →
      (t ++ ds.flatten) <+: a ++ happyDirective ++ b →
      streamInv (t ++ ds.flatten) (runStream ct (ds.map StreamItem.frag) st) := by
  induction ds with
  | nil =>
    intro t st hinv hpre
    simpa using hinv
  | cons d ds' ih =>
    intro t st hinv hpre
    have hassoc : t ++ (d :: ds').flatten = (t ++ d) ++ ds'.flatten := by
      simp [List.append_assoc]
    rw [hassoc]
    have hpre' : ((t ++ d) ++ ds'.flatten) <+: a ++ happyDirective ++ b := by
      rw [← hassoc]
      exact hpre
    have hstepPre : (t ++ d) <+: a ++ happyDirective ++ b :=
      (List.prefix_append (t ++ d) ds'.flatten).trans hpre'
    have hstep := streamStep_inv ct a b t d ha1 ha2 hstepPre st hinv
    have hrest := ih (t ++ d) (streamStep ct st d) hstep hpre'
    simpa [runStream] using hrest

/-! ### Theorems: C1 -/

/-- C1 counterexample: for the streamed reply whose fragments
concatenate to `"Hi! [DISPLAY:happy]"`, the dispatch with tag `happy`
does not fire exactly once — it fires twice (once from the incremental
scan, once more from the end-of-stream cleanup), while the returned
cleaned text is `"Hi! "` as claimed. -/
theorem chat_with_ai_stream_dispatch_not_once_cex :
    ¬((chat_with_ai_stream [] [] ("hi".toList)
        (.resp 200 [StreamItem.frag ("Hi! ".toList),
          StreamItem.frag ("[DISPLAY:happy]".toList), StreamItem.done])).esp32Sends.count
        ("happy".toList) = 1) ∧
    (chat_with_ai_stream [] [] ("hi".toList)
        (.resp 200 [StreamItem.frag ("Hi! ".toList),
          StreamItem.frag ("[DISPLAY:happy]".toList), StreamItem.done])).esp32Sends.count
        ("happy".toList) = 2 ∧
    (chat_with_ai_stream [] [] ("hi".toList)
        (.resp 200 [StreamItem.frag ("Hi! ".toList),
          StreamItem.frag ("[DISPLAY:happy]".toList), StreamItem.done])).reply =
      "Hi! ".toList := by
  decide

/-- C1 amended: for every streamed reply whose fragments concatenate to
a bracket-free prefix `a`, the directive `[DISPLAY:happy]`, and an
arbitrary suffix `b`, the dispatch with tag `happy` fires exactly twice
— once inside the streaming loop, as soon as the fragment completing
both markers has been consumed rather than only at end-of-stream (third
conjunct: after any fragment prefix already containing the close
bracket, the loop has dispatched `happy` exactly once and suppresses
repeats), and a second time from the end-of-stream cleanup — and the
returned cleaned text is `a ++ b` with the directive stripped. -/
theorem chat_with_ai_stream_happy_directive (ct : Str) (hist : List Msg)
    (user_input : Str) (fs : List Str) (a b : Str)
    (ha1 : '[' ∉ a) (ha2 : ']' ∉ a)
    (hjoin : fs.flatten = a ++ happyDirective ++ b) :
    ((chat_with_ai_stream ct hist user_input
        (.resp 200 (fs.map StreamItem.frag))).esp32Sends.count ("happy".toList) = 2) ∧
    ((chat_with_ai_stream ct hist user_input
        (.resp 200 (fs.map StreamItem.frag))).reply = a ++ b) ∧
    (∀ xs ys, fs = xs ++ ys → ']' ∈ xs.flatten →
      (runStream ct (xs.map StreamItem.frag)
        ⟨[], [], none, []⟩).dispatches = ["happy".toList]) := by
  have hinv0 : streamInv [] (⟨[], [], none, []⟩ : StreamState) := by
    refine ⟨rfl, rfl, ?_⟩
    rw [if_neg (by simp)]
    exact ⟨rfl, rfl⟩
  have hfullInv := runStream_inv ct a b ha1 ha2 fs [] ⟨[], [], none, []⟩ hinv0
    (by rw [List.nil_append, hjoin])
  rw [List.nil_append, hjoin] at hfullInv
  rcases hrs : runStream ct (fs.map StreamItem.frag)
      (⟨[], [], none, []⟩ : StreamState) with ⟨fr, buf, dc, disp⟩
  rw [hrs] at hfullInv
  obtain ⟨hfr, hbuf, hcond⟩ := hfullInv
  have hmem : ']' ∈ a ++ happyDirective ++ b := by
    apply List.mem_append_left
    apply List.mem_append_right
    decide
  rw [if_pos hmem] at hcond
  obtain ⟨hdc, hdisp⟩ := hcond
  simp only at hfr hdc hdisp
  subst hfr hdc hdisp
  have hpdc := process_display_commands_happy ct a b ha1
  have hres : chat_with_ai_stream ct hist user_input
      (.resp 200 (fs.map StreamItem.frag)) =
      ⟨a ++ b,
        (hist ++ [⟨Role.user, user_input⟩]) ++
          [⟨Role.assistant, a ++ happyDirective ++ b⟩],
        "neutral".toList :: (["happy".toList] ++ ["happy".toList])⟩ := by
    simp only [chat_with_ai_stream, hrs, hpdc]
    simp
  refine ⟨?_, ?_, ?_⟩
  · rw [hres]
    simp only []
    decide
  · rw [hres]
  · intro xs ys hfs hys
    have hpre : (([] : Str) ++ xs.flatten) <+: a ++ happyDirective ++ b := by
      rw [List.nil_append, ← hjoin, hfs, List.flatten_append]
      exact List.prefix_append _ _
    have hxinv := runStream_inv ct a b ha1 ha2 xs [] ⟨[], [], none, []⟩ hinv0 hpre
    rw [List.nil_append] at hxinv
    obtain ⟨_, _, hc⟩ := hxinv
    rw [if_pos hys] at hc
    exact hc.2

/-- Witness for C1 at the spec's concrete example. -/
theorem chat_with_ai_stream_happy_directive_witness :
    ((chat_with_ai_stream [] [] ("hi".toList)
        (.resp 200 ((["Hi! ".toList, "[DISPLAY:happy]".toList]).map
          StreamItem.frag))).esp32Sends.count ("happy".toList) = 2) ∧
    ((chat_with_ai_stream [] [] ("hi".toList)
        (.resp 200 ((["Hi! ".toList, "[DISPLAY:happy]".toList]).map
          StreamItem.frag))).reply = "Hi! ".toList ++ []) := by
  have h := chat_with_ai_stream_happy_directive [] [] ("hi".toList)
    ["Hi! ".toList, "[DISPLAY:happy]".toList] ("Hi! ".toList) []
    (by decide) (by decide) (by decide)
  exact ⟨h.1, h.2.1⟩

/-! ### Main loop (main, realtime path) -/

/-- The literal exit phrases checked by the main loop. -/
def exit_phrases : List Str := ["quit".toList, "exit".toList, "bye".toList]

/-- Outcome of one main-loop iteration. -/
inductive IterOut where
  | shutdown
  | respond (r : Str)
  | idle
deriving DecidableEq

/-- One iteration of the realtime main loop on the effective command
obtained for this round: `none` (queue timeout, ignored utterance, or
failed transcription) is skipped, as is a falsy empty string; a
lower-cased exit phrase breaks out of the loop; any other command gets
a chat response.  `chat` abstracts the chat-and-reply call. -/
def mainIteration (chat : Str → Str) (cmd : Option Str) : IterOut :=
  match cmd with
  | none => .idle
  | some s =>
    if s = [] then .idle
    else if strLower s ∈ exit_phrases then .shutdown
    else .respond (chat s)

/-- Session outcome of the realtime main loop over a finite trace of
per-iteration effective commands: the responses produced, whether the
`finally` block has cleared the continue flag and joined the capture
thread with its 2-second timeout, and whether the terminal shutdown
state was reached.  A trace exhausted without an exit phrase leaves the
loop still listening. -/
structure SessionState where
  responses : List Str
  flagCleared : Bool
  joinTimeout : Option Nat
  shutdown : Bool
deriving DecidableEq

/-- The realtime main loop over a finite trace. -/
def runMainLoop (chat : Str → Str) : List (Option Str) → SessionState
  | [] => ⟨[], false, none, false⟩
  | cmd :: rest =>
    match mainIteration chat cmd with
    | .shutdown => ⟨[], true, some 2, true⟩
    | .respond r =>
      match runMainLoop chat rest with
      | s => ⟨r :: s.responses, s.flagCleared, s.joinTimeout, s.shutdown⟩
    | .idle => runMainLoop chat rest

/-- C8: the main loop reaches its terminal shutdown state iff some
effective command in the trace lower-cases to one of the literal exit
phrases `quit`/`exit`/`bye`; on shutdown the continue flag is cleared
and the capture thread joined with a 2-second timeout; every other
non-empty effective command produces a chat response and the loop
returns to listening. -/
theorem runMainLoop_shutdown_iff (chat : Str → Str)
    (trace : List (Option Str)) :
    ((runMainLoop chat trace).shutdown = true ↔
      ∃ s : Str, some s ∈ trace ∧ strLower s ∈ exit_phrases) ∧
    ((runMainLoop chat trace).shutdown = true →
      (runMainLoop chat trace).flagCleared = true ∧
      (runMainLoop chat trace).joinTimeout = some 2) ∧
    (∀ (s : Str) (rest : List (Option Str)), s ≠ [] →
      strLower s ∉ exit_phrases →
      runMainLoop chat (some s :: rest) =
        ⟨chat s :: (runMainLoop chat rest).responses,
          (runMainLoop chat rest).flagCleared,
          (runMainLoop chat rest).joinTimeout,
          (runMainLoop chat rest).shutdown⟩) := by
  refine ⟨?_, ?_, ?_⟩
  · induction trace with
    | nil => simp [runMainLoop]
    | cons cmd rest ih =>
      cases cmd with
      | none =>
        rw [show runMainLoop chat (none :: rest) = runMainLoop chat rest from rfl, ih]
        constructor
        · rintro ⟨s, hs, hp⟩
          exact ⟨s, List.mem_cons_of_mem _ hs, hp⟩
        · rintro ⟨s, hs, hp⟩
          rcases List.mem_cons.mp hs with he | hm
          · cases he
          · exact ⟨s, hm, hp⟩
      | some s =>
        by_cases hse : s = []
        · subst hse
          rw [show runMainLoop chat (some [] :: rest) = runMainLoop chat rest from
            by simp [runMainLoop, mainIteration], ih]
          constructor
          · rintro ⟨s', hs, hp⟩
            exact ⟨s', List.mem_cons_of_mem _ hs, hp⟩
          · rintro ⟨s', hs, hp⟩
            rcases List.mem_cons.mp hs with he | hm
            · rw [Option.some_inj.mp he] at hp
              exact absurd hp (by decide)
            · exact ⟨s', hm, hp⟩
        · by_cases hex : strLower s ∈ exit_phrases
          · have hrun : runMainLoop chat (some s :: rest) = ⟨[], true, some 2, true⟩ := by
              simp [runMainLoop, mainIteration, hse, hex]
            rw [hrun]
            simp only [true_iff]
            exact ⟨s, List.mem_cons_self _ _, hex⟩
          · have hrun : runMainLoop chat (some s :: rest) =
                ⟨chat s :: (runMainLoop chat rest).responses,
                  (runMainLoop chat rest).flagCleared,
                  (runMainLoop chat rest).joinTimeout,
                  (runMainLoop chat rest).shutdown⟩ := by
              simp [runMainLoop, mainIteration, hse, hex]
            rw [hrun]
            simp only []
            rw [ih]
            constructor
            · rintro ⟨s', hs, hp⟩
              exact ⟨s', List.mem_cons_of_mem _ hs, hp⟩
            · rintro ⟨s', hs, hp⟩
              rcases List.mem_cons.mp hs with he | hm
              · rw [Option.some_inj.mp he] at hp
                exact absurd hp hex
              · exact ⟨s', hm, hp⟩
  · induction trace with
    | nil => simp [runMainLoop]
    | cons cmd rest ih =>
      cases cmd with
      | none => exact ih
      | some s =>
        by_cases hse : s = []
        · subst hse
          rw [show runMainLoop chat (some [] :: rest) = runMainLoop chat rest from
            by simp [runMainLoop, mainIteration]]
          exact ih
        · by_cases hex : strLower s ∈ exit_phrases
          · intro _
            constructor <;> simp [runMainLoop, mainIteration, hse, hex]
          · have hrun : runMainLoop chat (some s :: rest) =
                ⟨chat s :: (runMainLoop chat rest).responses,
                  (runMainLoop chat rest).flagCleared,
                  (runMainLoop chat rest).joinTimeout,
                  (runMainLoop chat rest).shutdown⟩ := by
              simp [runMainLoop, mainIteration, hse, hex]
            rw [hrun]
            exact ih
  · intro s rest hse hex
    simp [runMainLoop, mainIteration, hse, hex]

/-- Witness for C8: a session whose second command is `"QUIT"` shuts
down with the flag cleared and the thread joined. -/
theorem runMainLoop_shutdown_iff_witness :
    (runMainLoop (fun s => s)
      [some ("hello".toList), some ("QUIT".toList)]).shutdown = true ∧
    (runMainLoop (fun s => s)
      [some ("hello".toList), some ("QUIT".toList)]).flagCleared = true ∧
    (runMainLoop (fun s => s)
      [some ("hello".toList), some ("QUIT".toList)]).joinTimeout = some 2 := by
  have h := runMainLoop_shutdown_iff (fun s => s)
    [some ("hello".toList), some ("QUIT".toList)]
  have hsd := h.1.mpr ⟨"QUIT".toList, by decide, by decide⟩
  exact ⟨hsd, (h.2.1 hsd).1, (h.2.1 hsd).2⟩
